import Mathlib

/-!
Verification of `src/utilities.py` (sccompPy post-processing module).

The Python source is shallowly embedded: pandas DataFrames become Lean
lists of records or a generic string-columned table, the regular
expressions of the source are modelled character by character with the
same backtracking order, fallible pandas operations return `Except`.
Numeric draw values are embedded as `Int` (the source works with floats,
but no claim depends on non-integral arithmetic).
-/

deriving instance DecidableEq for Except

namespace SccompPy

/-- Errors raised by the embedded pandas operations, mirroring the Python
exception that the corresponding source line would raise. -/
inductive Err where
  /-- KeyError: a single column name is missing (for example the lookup of
  the nonexistent column `.value` at line 178 of the source). -/
  | keyError (col : String)
  /-- KeyError raised by column selection `df[cols]` listing every
  requested column absent from the frame. -/
  | keyErrorCols (cols : List String)
  /-- pandas IntCastingNaNError: `astype(int)` applied to a column that
  contains missing values (failed regex extraction). -/
  | intCastNaN
  /-- Python NameError: the source references an undefined name
  (`y` at line 210, `TRUE` at line 207). -/
  | nameError (n : String)
  /-- ValueError raised at line 120 naming every missing contrast. -/
  | valueError (missing : List String)
  /-- Failure of `df.eval(formula)`, re-raised in strict mode. -/
  | evalError (formula : String)
  /-- ValueError: column-labels assignment with mismatched length. -/
  | lengthMismatch
  /-- ValueError raised by `pivot` on duplicate (index, column) pairs. -/
  | pivotDuplicate
  deriving DecidableEq, Repr

/-! ## Character classes of the source regexes -/

/-- Character class `[a-zA-Z0-9_\.]` of the index-extraction pattern. -/
def isVarChar (c : Char) : Bool :=
  (('a' ≤ c && c ≤ 'z') || ('A' ≤ c && c ≤ 'Z') ||
   ('0' ≤ c && c ≤ '9') || c = '_' || c = '.')

/-- Character class `[1-9]` of the optional chain prefix. -/
def isChainChar (c : Char) : Bool := ('1' ≤ c && c ≤ '9')

/-- Character class `[0-9]`. -/
def isDigitChar (c : Char) : Bool := ('0' ≤ c && c ≤ '9')

/-- Python `\s` restricted to the usual ASCII whitespace characters. -/
def isSpaceChar (c : Char) : Bool :=
  (c = ' ' || c = '\t' || c = '\n' || c = '\r' || c = '\x0b' || c = '\x0c')

/-- Value of a nonempty digit string, as produced by `astype(int)` on a
captured `[0-9]+` group. -/
def digitsToNat (l : List Char) : Nat :=
  l.foldl (fun a c => a * 10 + (c.toNat - '0'.toNat)) 0

/-! ## Index Extractor

Model of `re.search` for the fixed pattern of line 28 of the source,

  `([1-9]+)?\.?([a-zA-Z0-9_\.]+)\[([0-9]+),([0-9]+)`

applied by `Series.str.extract`.  The pattern is matched with the
backtracking order of the Python engine: the optional chain group is
greedy (longest `[1-9]+` munch first, down to one character, then the
empty alternative), the optional dot prefers to be consumed, the
variable group is greedy.  Because the variable class excludes `[` and a
literal `[` must follow the group, only the maximal munch of the
variable group can succeed, so it is taken without backtracking;
likewise the two digit groups are followed by `,` respectively by the
end of the pattern, neither of which a digit can satisfy, so their
maximal munches are the only candidates. -/

/-- Captured groups of a successful match: optional chain prefix,
variable name, row index digits, column index digits. -/
structure Groups where
  chainCap : Option (List Char)
  varCap : List Char
  xCap : List Char
  yCap : List Char
  deriving DecidableEq, Repr

/-- Match `\[([0-9]+),([0-9]+)` at the start of `l`, returning the two
digit groups.  The digit munches are maximal: `,` is not a digit and
nothing of the pattern follows the second group, so no shorter munch
can succeed. -/
def matchBracketPart (l : List Char) : Option (List Char × List Char) :=
  match l with
  | [] => none
  | b :: r1 =>
    if b = '[' then
      if (r1.takeWhile isDigitChar).isEmpty then none else
      match r1.drop (r1.takeWhile isDigitChar).length with
      | [] => none
      | d :: r2 =>
        if d = ',' then
          if (r2.takeWhile isDigitChar).isEmpty then none
          else some (r1.takeWhile isDigitChar, r2.takeWhile isDigitChar)
        else none
    else none

/-- Match `([a-zA-Z0-9_\.]+)\[([0-9]+),([0-9]+)` at the start of `l`
(maximal munch of the variable group; the class excludes `[` and a
literal `[` must follow, so only the maximal munch can succeed). -/
def matchVarPart (l : List Char) : Option (List Char × List Char × List Char) :=
  if (l.takeWhile isVarChar).isEmpty then none else
  match matchBracketPart (l.drop (l.takeWhile isVarChar).length) with
  | some (xs, ys) => some (l.takeWhile isVarChar, xs, ys)
  | none => none

/-- Match `\.?` followed by the variable part, preferring to consume the
dot (greedy `?`). -/
def matchDotVarPart (l : List Char) : Option (List Char × List Char × List Char) :=
  match l with
  | [] => matchVarPart []
  | d :: rest =>
    if d = '.' then
      match matchVarPart rest with
      | some g => some g
      | none => matchVarPart (d :: rest)
    else matchVarPart (d :: rest)

/-- Try the chain group at length `n`, `n-1`, ..., `1`, then the empty
alternative, mirroring the greedy `([1-9]+)?`. -/
def tryChainLen : Nat → List Char → Option Groups
  | 0, l =>
    match matchDotVarPart l with
    | some (v, xs, ys) => some ⟨none, v, xs, ys⟩
    | none => none
  | n + 1, l =>
    match matchDotVarPart (l.drop (n + 1)) with
    | some (v, xs, ys) => some ⟨some (l.take (n + 1)), v, xs, ys⟩
    | none => tryChainLen n l

/-- Attempt a match of the whole pattern anchored at the start of `l`. -/
def matchAt (l : List Char) : Option Groups :=
  tryChainLen (l.takeWhile isChainChar).length l

/-- `re.search`: try each start position from the left; the leftmost
position admitting a match wins. -/
def searchExtract : List Char → Option Groups
  | [] => none
  | c :: rest =>
    match matchAt (c :: rest) with
    | some g => some g
    | none => searchExtract rest

/-- Extraction as used at lines 29-33 of the source: the `variable`
capture together with the two integer indices after `astype(int)`.
`none` models the all-NaN row produced by `str.extract` on a
non-matching parameter name. -/
def extractVarXY (s : String) : Option (String × Nat × Nat) :=
  match searchExtract s.data with
  | some g => some (⟨g.varCap⟩, digitsToNat g.xCap, digitsToNat g.yCap)
  | none => none

/-- Plain substring containment, modelling `re.search` for the literal
patterns (no metacharacters) that the source passes, such as `"beta"`
at line 25 and the summary filter of line 54. -/
def isSubstr (p : List Char) : List Char → Bool
  | [] => p.isEmpty
  | c :: rest => p.isPrefixOf (c :: rest) || isSubstr p rest

/-- String-level wrapper of `isSubstr`. -/
def containsSub (p s : String) : Bool := isSubstr p.data s.data

/-! ## Engine model

The inference engine (`fit` object) is external to the module; the spec
describes its interface only.  `Fit.cols` models the draw columns of the
engine keyed by the owning Stan variable: `fit.draws_pd(vars)` returns
the columns belonging to the requested variables, plus the method
columns `chain__`, `iter__`, `draw__` modelled by `idRows`. -/

structure Fit where
  /-- Draw columns: (owning variable name, column name, values per draw
  row, aligned with `idRows`). -/
  cols : List (String × String × List Int)
  /-- The `chain__`, `iter__`, `draw__` method columns, one triple per
  draw row. -/
  idRows : List (Nat × Nat × Nat)
  deriving DecidableEq, Repr

/-- `fit.draws_pd([...vars...])`: draw columns of the requested
variables (line 22 requests `['beta', 'chain__', 'iter__', 'draw__']`,
so only columns of the variable `beta` are returned). -/
def drawsPd (fit : Fit) (vars : List String) : List (String × List Int) :=
  fit.cols.filterMap (fun c => if vars.contains c.1 then some (c.2.1, c.2.2) else none)

/-- A melted record, line 25: one row per (id row, selected column). -/
structure MeltRec where
  chain : Nat
  iter : Nat
  draw : Nat
  parameter : String
  value : Int
  deriving DecidableEq, Repr

/-- `value_vars` of the melt at line 25: the columns of the
`draws_pd` result whose name contains the literal substring `beta`
(the condition is hardcoded in the source; the `variable_pattern`
argument `par` plays no role here). -/
def meltValueVars (cols : List (String × List Int)) : List (String × List Int) :=
  cols.filter (fun c => containsSub "beta" c.1)

/-- The melt of line 25, in pandas order: variable-major, each column
contributing one record per id row in row order. -/
def meltBeta (idRows : List (Nat × Nat × Nat)) (cols : List (String × List Int)) :
    List MeltRec :=
  (meltValueVars cols).flatMap
    (fun c => (idRows.zip c.2).map
      (fun p => ⟨p.1.1, p.1.2.1, p.1.2.2, c.1, p.2⟩))

/-- Melted long table of `draws_to_tibble_x_y` before extraction. -/
def meltedOf (fit : Fit) : List MeltRec :=
  meltBeta fit.idRows (drawsPd fit ["beta", "chain__", "iter__", "draw__"])

/-- A record of the reshaped draw table (the columns selected at line
40).  `x` and `y` are the two extracted indices (called `C` and `M` by
the orchestrator). -/
structure DrawRec where
  chain : Nat
  iter : Nat
  draw : Nat
  variable_ : String
  x : Nat
  y : Nat
  value : Int
  deriving DecidableEq, Repr

/-- Assemble a reshaped record from a melted record and its extracted
`(variable, x, y)` triple. -/
def buildRec (m : MeltRec) (g : String × Nat × Nat) : DrawRec :=
  ⟨m.chain, m.iter, m.draw, g.1, g.2.1, g.2.2, m.value⟩

/-- Lines 29-33: apply the extraction to every melted record and convert
the captured indices with `astype(int)`.  If any record fails to match,
the extracted index columns contain missing values and `astype(int)`
raises (pandas IntCastingNaNError); no record is dropped silently. -/
def astypeExtract (l : List MeltRec) : Except Err (List DrawRec) :=
  if l.all (fun m => (extractVarXY m.parameter).isSome) then
    .ok (l.filterMap (fun m => (extractVarXY m.parameter).map (buildRec m)))
  else
    .error .intCastNaN

/-- The records of the successfully extracted long table of a fit (the
`.ok` payload of `astypeExtract` on the melted table). -/
def astypeRecs (fit : Fit) : List DrawRec :=
  (meltedOf fit).filterMap (fun m => (extractVarXY m.parameter).map (buildRec m))

/-- Strict lexicographic comparison of natural-number lists. -/
def natListLtB : List Nat → List Nat → Bool
  | [], [] => false
  | [], _ :: _ => true
  | _ :: _, [] => false
  | a :: as, b :: bs =>
    if a < b then true else if b < a then false else natListLtB as bs

/-- Sort key of line 36, `['variable', x, y, 'chain__']`, encoded as a
single natural-number list compared lexicographically.  The variable
string contributes its characters (shifted by one) closed by a `0`
end marker, so that a proper prefix string sorts first, exactly as
string order does; the tag (original position) is appended as the final
component: a multi-column pandas `sort_values` is a stable
lexicographic sort, which coincides with any sort by (key, original
position) — that order has no ties, so its sorted permutation is
unique. -/
def tagKey (p : DrawRec × Nat) : List Nat :=
  p.1.variable_.data.map (fun c => c.toNat + 1) ++
    [0, p.1.x, p.1.y, p.1.chain, p.2]

/-- Comparison used by the embedded `sort_values`: key of `p` not above
key of `q`. -/
def tagLeB (p q : DrawRec × Nat) : Bool := ! natListLtB (tagKey q) (tagKey p)

/-- The comparison as a decidable relation for `List.insertionSort`. -/
def tagLeRel (p q : DrawRec × Nat) : Prop := tagLeB p q = true

instance tagLeRelDecidable : DecidableRel tagLeRel :=
  fun p q => inferInstanceAs (Decidable (tagLeB p q = true))

/-- Tag each record with its position in the list. -/
def tagIdx : List DrawRec → Nat → List (DrawRec × Nat)
  | [], _ => []
  | r :: rs, n => (r, n) :: tagIdx rs (n + 1)

/-- Line 36: stable sort by `['variable', x, y, 'chain__']`. -/
def sortRecs (l : List DrawRec) : List DrawRec :=
  (List.insertionSort tagLeRel (tagIdx l 0)).map Prod.fst

/-- Group key of the groupby at line 37: `['variable', x, y]`. -/
def gKey (r : DrawRec) : String × Nat × Nat := (r.variable_, r.x, r.y)

/-- Chain-major order on records: strictly increasing chain, or equal
chains with non-decreasing iterations. -/
def chainIterOrdered (a b : DrawRec) : Prop :=
  a.chain < b.chain ∨ (a.chain = b.chain ∧ a.iter ≤ b.iter)

instance chainIterOrderedDecidable :
    ∀ a b : DrawRec, Decidable (chainIterOrdered a b) :=
  fun a b => inferInstanceAs
    (Decidable (a.chain < b.chain ∨ (a.chain = b.chain ∧ a.iter ≤ b.iter)))

/-- The long table is emitted by the engine in iteration order within
each chain: records that agree on the whole sort key of line 36
(`variable`, `x`, `y`, `chain__`) appear with non-decreasing iteration
numbers.  This holds for the melt of any engine draw table, whose rows
are ordered by (chain, iteration) within each draw column. -/
def tieOrdered (l : List DrawRec) : Prop :=
  l.Pairwise (fun a b => gKey a = gKey b → a.chain = b.chain → a.iter ≤ b.iter)

instance tieRelDecidable :
    ∀ a b : DrawRec,
      Decidable (gKey a = gKey b → a.chain = b.chain → a.iter ≤ b.iter) :=
  fun a b =>
    if h1 : gKey a = gKey b then
      if h2 : a.chain = b.chain then
        if h3 : a.iter ≤ b.iter then isTrue (fun _ _ => h3)
        else isFalse (fun f => h3 (f h1 h2))
      else isTrue (fun _ hc => absurd hc h2)
    else isTrue (fun hk => absurd hk h1)

instance tieOrderedDecidable (l : List DrawRec) : Decidable (tieOrdered l) :=
  inferInstanceAs (Decidable (l.Pairwise _))

/-- Overwrite the `draw__` column of one record. -/
def setDraw (r : DrawRec) (n : Nat) : DrawRec :=
  { r with draw := n }

/-- `df.assign(draw__=range(1, len(df) + 1))` applied to one group, with
`n` the next draw number to assign. -/
def assignSeq : List DrawRec → Nat → List DrawRec
  | [], _ => []
  | r :: rs, n => setDraw r n :: assignSeq rs (n + 1)

/-- First-occurrence deduplication: keep a key only the first time it
appears.  `seen` holds the keys already emitted. -/
def dedupSeen {α : Type} [DecidableEq α] (seen : List α) : List α → List α
  | [] => []
  | k :: ks =>
    if seen.contains k then dedupSeen seen ks
    else k :: dedupSeen (k :: seen) ks

/-- First-occurrence deduplication. -/
def dedupKeys {α : Type} [DecidableEq α] (l : List α) : List α :=
  dedupSeen [] l

/-- Line 37: `groupby(['variable', x, y]).apply(assign draw 1..N)`.
Each group receives the dense draw numbers `1..N` in group row order;
the groups are emitted whole, one after another.  (pandas orders the
groups by ascending key; the input list is already sorted by the group
key, so first-occurrence order coincides with ascending key order.) -/
def groupbyAssign (l : List DrawRec) : List DrawRec :=
  (dedupKeys (l.map gKey)).flatMap
    (fun k => assignSeq (l.filter (fun r => gKey r = k)) 1)

/-- Line 19 of the source: parameter names matching the pattern.  The
binding is dead code (never used afterwards); it is kept to mirror the
source. -/
def parNames (fit : Fit) (par : String) : List String :=
  (fit.cols.map (fun c => c.1)).filter (fun v => containsSub par v)

/-- `draws_to_tibble_x_y` (lines 16-43).  The arguments `x` and `y` of
the source name the two extracted index columns; in this typed embedding
the fields are fixed, so the arguments are received and not consulted. -/
def draws_to_tibble_x_y (fit : Fit) (par : String) (_x _y : String) :
    Except Err (List DrawRec) := do
  let _par_names := parNames fit par
  let draws_df := drawsPd fit ["beta", "chain__", "iter__", "draw__"]
  let melted := meltBeta fit.idRows draws_df
  let recs ← astypeExtract melted
  let sorted := sortRecs recs
  let grouped := groupbyAssign sorted
  pure (grouped.filter (fun r => r.variable_ = par))

/-! ## Generic string-columned frame

The orchestrator and the Summary Reshaper address columns by name (and
the latent bugs of the source are name lookups), so they are embedded
over a frame with explicit column names. -/

/-- A cell of the generic frame. -/
inductive Cell where
  | n (v : Nat)
  | i (v : Int)
  | s (v : String)
  | na
  deriving DecidableEq, Repr

/-- A frame: named columns, rows of cells aligned with the columns. -/
structure DF where
  cols : List String
  rows : List (List Cell)
  deriving DecidableEq, Repr

/-- Cell of row `cells` under column `name`, `na` when absent. -/
def lookupCell (cols : List String) (cells : List Cell) (name : String) : Cell :=
  match (cols.zip cells).find? (fun p => p.1 = name) with
  | some p => p.2
  | none => Cell.na

/-- `df.drop(columns=names, errors='ignore')`. -/
def dfDrop (df : DF) (names : List String) : DF :=
  let keptIdx := (List.range df.cols.length).filter
    (fun j => ¬ names.contains (df.cols.getD j ""))
  { cols := keptIdx.map (fun j => df.cols.getD j ""),
    rows := df.rows.map (fun r => keptIdx.map (fun j => r.getD j Cell.na)) }

/-- Does a list contain a duplicate? -/
def hasDup {α : Type} [DecidableEq α] (l : List α) : Bool :=
  l.any (fun k => 1 < l.count k)

/-- Insert into a sorted list, before the first element not below the
inserted one. -/
def orderedInsertB {α : Type} (le : α → α → Bool) (a : α) : List α → List α
  | [] => [a]
  | b :: l => if le a b then a :: b :: l else b :: orderedInsertB le a l

/-- Insertion sort by a boolean comparison (used for the ascending key
and column orders that pandas `pivot` produces). -/
def insertionSortB {α : Type} (le : α → α → Bool) : List α → List α
  | [] => []
  | a :: l => orderedInsertB le a (insertionSortB le l)

/-- Ascending sort of naturals (pandas pivot emits its column values in
ascending order). -/
def sortNat (l : List Nat) : List Nat :=
  insertionSortB (fun a b => decide (a ≤ b)) l

/-- Pivot index key `(chain__, iter__, draw__, variable, M)` encoded as
a natural-number list for lexicographic comparison (same encoding of the
string component as in `tagKey`). -/
def pivotKeyList (k : Nat × Nat × Nat × String × Nat) : List Nat :=
  [k.1, k.2.1, k.2.2.1] ++ k.2.2.2.1.data.map (fun c => c.toNat + 1) ++
    [0, k.2.2.2.2]

/-- Lexicographic comparison of pivot index keys. -/
def pivotKeyLe (a b : Nat × Nat × Nat × String × Nat) : Bool :=
  ! natListLtB (pivotKeyList b) (pivotKeyList a)

/-- Lines 163-165: `beta.pivot(index=['chain__','iter__','draw__',
'variable','M'], columns='C', values='value')`, followed by the
assignment `beta.columns = beta_factor_of_interest` (ValueError when the
label count differs from the number of distinct `C` values) and
`reset_index` (the index fields become the leading columns).  Pivot
raises on duplicate (index, column) pairs and sorts both the index keys
and the column values ascending; a missing (index, column) combination
yields a missing cell. -/
def pivotBeta (recs : List DrawRec) (labels : List String) : Except Err DF :=
  let keyOf : DrawRec → Nat × Nat × Nat × String × Nat :=
    fun r => (r.chain, r.iter, r.draw, r.variable_, r.y)
  if hasDup (recs.map (fun r => (keyOf r, r.x))) then .error .pivotDuplicate
  else
    let cVals := dedupKeys (sortNat (recs.map (fun r => r.x)))
    if cVals.length ≠ labels.length then .error .lengthMismatch
    else
      let keys := dedupKeys (insertionSortB pivotKeyLe (recs.map keyOf))
      .ok { cols := ["chain__", "iter__", "draw__", "variable", "M"] ++ labels,
            rows := keys.map (fun k =>
              [Cell.n k.1, Cell.n k.2.1, Cell.n k.2.2.1, Cell.s k.2.2.2.1,
               Cell.n k.2.2.2.2] ++
              cVals.map (fun c =>
                match recs.find? (fun r => keyOf r = k ∧ r.x = c) with
                | some r => Cell.i r.value
                | none => Cell.na)) }

/-- The reshaped draw table as a named frame (the frame the orchestrator
manipulates at lines 175-186). -/
def toDF (recs : List DrawRec) : DF :=
  { cols := ["chain__", "iter__", "draw__", "variable", "C", "M", "value"],
    rows := recs.map (fun r =>
      [Cell.n r.chain, Cell.n r.iter, Cell.n r.draw, Cell.s r.variable_,
       Cell.n r.x, Cell.n r.y, Cell.i r.value]) }

/-- Sum of the `Int` cells of a list (pandas `sum` skips missing
values). -/
def sumCells (l : List Cell) : Int :=
  l.foldl (fun a c => match c with | Cell.i v => a + v | _ => a) 0

/-- `df.groupby(keys)[valueCol].sum().reset_index()`.  pandas validates
the grouping columns when `groupby` is called (KeyError on the first
missing one) and the selected value column at the subscript (KeyError).
This is where line 178 of the source fails: the reshaped table names its
value column `value`, and the lookup of `.value` raises. -/
def dfGroupbySum (df : DF) (keys : List String) (valueCol : String) :
    Except Err DF :=
  match keys.find? (fun k => ¬ df.cols.contains k) with
  | some k => .error (.keyError k)
  | none =>
    if ¬ df.cols.contains valueCol then .error (.keyError valueCol)
    else
      let keyTuple := fun (r : List Cell) => keys.map (lookupCell df.cols r)
      let groups := dedupKeys (df.rows.map keyTuple)
      .ok { cols := keys ++ [valueCol],
            rows := groups.map (fun g =>
              g ++ [Cell.i (sumCells
                ((df.rows.filter (fun r => keyTuple r = g)).map
                  (fun r => lookupCell df.cols r valueCol)))]) }

/-- Map one named column in place (`df[c] = f(df[c])`); KeyError when
the column is read but absent. -/
def dfMapCol (df : DF) (name : String) (f : Cell → Cell) : Except Err DF :=
  if ¬ df.cols.contains name then .error (.keyError name)
  else
    .ok { cols := df.cols,
          rows := df.rows.map (fun r =>
            (df.cols.zip r).map (fun p => if p.1 = name then f p.2 else p.2)) }

/-- Assign a constant column (`df[c] = v`): replace in place when the
column exists, append otherwise. -/
def dfSetConstCol (df : DF) (name : String) (v : Cell) : DF :=
  if df.cols.contains name then
    { cols := df.cols,
      rows := df.rows.map (fun r =>
        (df.cols.zip r).map (fun p => if p.1 = name then v else p.2)) }
  else
    { cols := df.cols ++ [name], rows := df.rows.map (fun r => r ++ [v]) }

/-- Maximum of the numeric cells of a column (`df[c].max()`); `none`
models the NaN returned on an all-missing or empty column. -/
def dfMaxCol (df : DF) (name : String) : Except Err (Option Int) :=
  if ¬ df.cols.contains name then .error (.keyError name)
  else
    .ok ((df.rows.map (fun r => lookupCell df.cols r name)).foldl
      (fun a c =>
        match c, a with
        | Cell.i v, some m => some (max m v)
        | Cell.i v, none => some v
        | Cell.n v, some m => some (max m (Int.ofNat v))
        | Cell.n v, none => some (Int.ofNat v)
        | _, acc => acc) none)

/-- `pd.concat([a, b])`: columns aligned by name, the union of the
column sets in order of first appearance, missing entries NaN. -/
def dfConcat (a b : DF) : DF :=
  let cols := dedupKeys (a.cols ++ b.cols)
  { cols := cols,
    rows := (a.rows.map (fun r => cols.map (lookupCell a.cols r))) ++
            (b.rows.map (fun r => cols.map (lookupCell b.cols r))) }

/-- Generic `df.pivot(index=idx, columns=colCol, values=valCol)` with
`reset_index`, by column names (line 184).  KeyError on a missing named
column, ValueError on duplicate (index, column) pairs. -/
def dfPivotNamed (df : DF) (idx : List String) (colCol valCol : String) :
    Except Err DF :=
  match (idx ++ [colCol, valCol]).find? (fun k => ¬ df.cols.contains k) with
  | some k => .error (.keyError k)
  | none =>
    let keyOf := fun (r : List Cell) => idx.map (lookupCell df.cols r)
    let colOf := fun (r : List Cell) => lookupCell df.cols r colCol
    if hasDup (df.rows.map (fun r => (keyOf r, colOf r))) then
      .error .pivotDuplicate
    else
      let keys := dedupKeys (df.rows.map keyOf)
      let colVals := dedupKeys (df.rows.map colOf)
      .ok { cols := idx ++ colVals.map (fun c =>
              match c with | Cell.s v => v | Cell.n v => toString v
                           | Cell.i v => toString v | Cell.na => ""),
            rows := keys.map (fun k =>
              k ++ colVals.map (fun c =>
                match df.rows.find? (fun r => keyOf r = k ∧ colOf r = c) with
                | some r => lookupCell df.cols r valCol
                | none => Cell.na)) }

/-- Rename the value columns of a pivoted frame, keeping the first
`nKeep` key columns (`wide.columns = labels`, line 185); ValueError on a
length mismatch. -/
def dfSetValueColumns (df : DF) (nKeep : Nat) (labels : List String) :
    Except Err DF :=
  if df.cols.length - nKeep ≠ labels.length then .error .lengthMismatch
  else .ok { cols := df.cols.take nKeep ++ labels, rows := df.rows }

/-- Left merge on the frame indexes (line 186).  After `reset_index` the
left frame carries the default positional index while the right frame
keeps its pivot key index; this statement is unreachable in the source
(the KeyError of line 178 precedes it on every input), and is modelled
positionally: the i-th right row extends the i-th left row, absent right
rows contribute missing cells. -/
def dfMergeIndexLeft (a b : DF) : DF :=
  { cols := a.cols ++ b.cols,
    rows := (List.range a.rows.length).map (fun i =>
      a.rows.getD i [] ++
      (match b.rows.get? i with
       | some r => r
       | none => b.cols.map (fun _ => Cell.na))) }

/-! ## Summary Reshaper (`summary_to_tibble`, lines 45-86) -/

/-- The summary table of the engine (`fit.summary(probs)`): column names
and rows indexed by parameter name. -/
structure SummaryFit where
  sumCols : List String
  sumRows : List (String × List Cell)
  deriving DecidableEq, Repr

/-- Split on a character predicate, keeping empty segments (model of
`re.split` on a single-character alternation). -/
def splitOnPredAux (p : Char → Bool) : List Char → List Char → List (List Char)
  | [], acc => [acc.reverse]
  | c :: rest, acc =>
    if p c then acc.reverse :: splitOnPredAux p rest []
    else splitOnPredAux p rest (c :: acc)

/-- `re.split(r"\[|\]|,|\s", var_name)` followed by the removal of the
empty segments (lines 67-68). -/
def splitVariableName (name : String) : List String :=
  ((splitOnPredAux
      (fun c => c = '[' || c = ']' || c = ',' || isSpaceChar c)
      name.data []).filter (fun seg => ¬ seg.isEmpty)).map
    (fun seg => ⟨seg⟩)

/-- `summary_to_tibble` (lines 45-86).  The `probs` default of the
source is `(5, 25, 50, 75, 95)`.  Note the column selection of line 60:
`filtered_summary[columns_to_keep]` raises a KeyError naming every
requested column absent from the summary, so the injection of missing
`N_Eff`/`R_hat` columns at lines 81-84 can only run when both columns
are already present. -/
def summary_to_tibble (fit : SummaryFit) (par : String) (x : String)
    (y : Option String) (probs : List Nat) : Except Err DF :=
  let filtered := fit.sumRows.filter (fun r => containsSub par r.1)
  let prob_cols := probs.map (fun p => toString p ++ "%")
  let columns_to_keep := ["Mean"] ++ prob_cols ++ ["N_Eff", "R_hat"]
  let missing := columns_to_keep.filter (fun c => ¬ fit.sumCols.contains c)
  if ¬ missing.isEmpty then .error (.keyErrorCols missing)
  else
    let nSplit := if y.isSome then 3 else 2
    let splitCols := ["variable", x] ++ (match y with | some c => [c] | none => [])
    let base : DF :=
      { cols := splitCols ++ columns_to_keep,
        rows := filtered.map (fun r =>
          let parts := (splitVariableName r.1).take nSplit
          ((List.range nSplit).map (fun j =>
            match parts.get? j with
            | some s => Cell.s s
            | none => Cell.na)) ++
          columns_to_keep.map (lookupCell fit.sumCols r.2)) }
    let base :=
      if ¬ base.cols.contains "N_Eff" then dfSetConstCol base "N_Eff" Cell.na
      else base
    let base :=
      if ¬ base.cols.contains "R_hat" then dfSetConstCol base "R_hat" Cell.na
      else base
    .ok base

/-! ## Contrast Evaluator (`mutate_from_expr_list`, lines 90-149)

The wide table the evaluator works on has numeric columns only, so it is
embedded with `Int` columns.  Python mutates the caller's DataFrame in
place (`df[column_name] = df.eval(formula)` at line 135 writes into the
object the caller passed); the embedding therefore returns the final
state of that object together with the exception, if one was raised:
the first component is what the caller observes in its own variable
after the call, whether or not the call raised. -/

/-- Wide numeric table: named `Int` columns. -/
structure Table where
  cols : List (String × List Int)
  deriving DecidableEq, Repr

/-- Column names of the table (`x.columns.tolist()`, line 97). -/
def Table.colNames (t : Table) : List String := t.cols.map (fun p => p.1)

/-- Row count of the table. -/
def Table.nRows (t : Table) : Nat :=
  match t.cols with
  | [] => 0
  | c :: _ => c.2.length

/-- `df[c] = v`: replace the column in place when it exists, append it
otherwise. -/
def tAssign (t : Table) (c : String) (v : List Int) : Table :=
  if t.colNames.contains c then
    { cols := t.cols.map (fun p => if p.1 = c then (c, v) else p) }
  else
    { cols := t.cols ++ [(c, v)] }

/-- Match `[0-9]+/[0-9]+\s?\*` at the start of `l`, returning the
remainder after the match.  The digit munches are maximal: the
characters required after each group (`/`, whitespace-or-`*`) are not
digits, so no shorter munch can succeed. -/
def matchFracAt (l : List Char) : Option (List Char) :=
  if (l.takeWhile isDigitChar).isEmpty then none else
  match l.drop (l.takeWhile isDigitChar).length with
  | '/' :: r1 =>
    if (r1.takeWhile isDigitChar).isEmpty then none else
    match r1.drop (r1.takeWhile isDigitChar).length with
    | '*' :: r2 => some r2
    | w :: '*' :: r2 => if isSpaceChar w then some r2 else none
    | _ => none
  | _ => none

/-- Scanner for `re.sub(r"[0-9]+/[0-9]+\s?\*", "", expr)`: walk left to
right, removing each non-overlapping leftmost match.  Structural
recursion on a fuel that starts at the input length: every step consumes
at least one character (`matchFracAt_length`), so the fuel never runs
out before the input does. -/
def remFracFuel : Nat → List Char → List Char
  | 0, l => l
  | fuel + 1, l =>
    match l with
    | [] => []
    | c :: cs =>
      match matchFracAt (c :: cs) with
      | some rest => remFracFuel fuel rest
      | none => c :: remFracFuel fuel cs

/-- `re.sub(r"[0-9]+/[0-9]+\s?\*", "", expr)` (line 101). -/
def remFrac (l : List Char) : List Char :=
  remFracFuel l.length l

/-- Match `[0-9]+\.[0-9]+\s?\*` (the decimal pattern after its optional
sign) at the start of `l`. -/
def matchDecCore (l : List Char) : Option (List Char) :=
  if (l.takeWhile isDigitChar).isEmpty then none else
  match l.drop (l.takeWhile isDigitChar).length with
  | '.' :: r1 =>
    if (r1.takeWhile isDigitChar).isEmpty then none else
    match r1.drop (r1.takeWhile isDigitChar).length with
    | '*' :: r2 => some r2
    | w :: '*' :: r2 => if isSpaceChar w then some r2 else none
    | _ => none
  | _ => none

/-- Match `[-+]?[0-9]+\.[0-9]+\s?\*` at the start of `l`.  When the
optional sign is present but the rest fails, the signless alternative
also fails (a sign character is not a digit), so it is not retried. -/
def matchDecAt (l : List Char) : Option (List Char) :=
  match l with
  | [] => none
  | c :: rest =>
    if c = '-' || c = '+' then matchDecCore rest else matchDecCore (c :: rest)

/-- Scanner for the decimal pattern, with the same fuel discipline as
`remFracFuel` (justified by `matchDecAt_length`). -/
def remDecFuel : Nat → List Char → List Char
  | 0, l => l
  | fuel + 1, l =>
    match l with
    | [] => []
    | c :: cs =>
      match matchDecAt (c :: cs) with
      | some rest => remDecFuel fuel rest
      | none => c :: remDecFuel fuel cs

/-- `re.sub(r"[-+]?[0-9]+\.[0-9]+\s?\*", "", expr)` (line 102). -/
def remDec (l : List Char) : List Char :=
  remDecFuel l.length l

/-- `clean_contrast_elements` (lines 100-105): strip fraction and
decimal multiplicative factors, split on the operators `+ - *` (empty
segments are kept, as `re.split` keeps them), then delete parentheses
and whitespace from each token. -/
def clean_contrast_elements (expr : String) : List String :=
  let e1 := remFrac expr.data
  let e2 := remDec e1
  let parts := splitOnPredAux (fun c => c = '+' || c = '-' || c = '*') e2 []
  parts.map (fun seg =>
    ⟨seg.filter (fun c => ¬ (c = '(' || c = ')' || isSpaceChar c))⟩)

/-- Character class `[a-zA-Z0-9_]`. -/
def isAlnumUnd (c : Char) : Bool :=
  (('a' ≤ c && c ≤ 'z') || ('A' ≤ c && c ≤ 'Z') ||
   ('0' ≤ c && c ≤ '9') || c = '_')

/-- `requires_backquotes` (lines 110-111): the element does not fully
match `^[a-zA-Z0-9_]+$`. -/
def requires_backquotes (element : String) : Bool :=
  ¬ (¬ element.data.isEmpty && element.data.all isAlnumUnd)

/-- Full match of `^[a-zA-Z_][a-zA-Z0-9_]*$` (line 125): a valid Python
identifier. -/
def isPyIdent (col : String) : Bool :=
  match col.data with
  | [] => false
  | c :: rest =>
    (('a' ≤ c && c ≤ 'z') || ('A' ≤ c && c ≤ 'Z') || c = '_') &&
    rest.all isAlnumUnd

/-- `escape_column_names` (lines 123-128): wrap every occurrence of a
non-identifier column name in backquotes. -/
def escape_column_names (formula : String) (columns : List String) : String :=
  columns.foldl
    (fun f col =>
      if ¬ isPyIdent col then f.replace col ("`" ++ col ++ "`") else f)
    formula

/-! ### Model of `df.eval`

The expression engine is external (spec section 1); it is modelled by a
small arithmetic evaluator over the named columns: `+ - * /` with the
usual precedence, unary minus, parentheses, integer literals,
identifiers and backquoted identifiers.  Division is integer division
here (the engine divides floats; no claim depends on quotient values).
A reference to a name that is not a column, or a malformed expression,
fails — the engine raises, which line 136 catches. -/

/-- Tokens of the expression language. -/
inductive Tok where
  | ident (s : String)
  | num (v : Int)
  | plus
  | minus
  | star
  | slash
  | lparen
  | rparen
  deriving DecidableEq, Repr

/-- Tokenizer (fuel-indexed; the fuel is at least the input length, so
exhaustion is unreachable and conservatively reported as failure). -/
def tokenizeAux : Nat → List Char → Option (List Tok)
  | 0, l => if l.isEmpty then some [] else none
  | _ + 1, [] => some []
  | fuel + 1, c :: cs =>
    if isSpaceChar c then tokenizeAux fuel cs
    else if isDigitChar c then
      let ds := (c :: cs).takeWhile isDigitChar
      match tokenizeAux fuel ((c :: cs).drop ds.length) with
      | some ts => some (Tok.num (Int.ofNat (digitsToNat ds)) :: ts)
      | none => none
    else if (('a' ≤ c && c ≤ 'z') || ('A' ≤ c && c ≤ 'Z') || c = '_') then
      let ids := (c :: cs).takeWhile isAlnumUnd
      match tokenizeAux fuel ((c :: cs).drop ids.length) with
      | some ts => some (Tok.ident ⟨ids⟩ :: ts)
      | none => none
    else if c = '`' then
      let ids := cs.takeWhile (fun d => d ≠ '`')
      match cs.drop ids.length with
      | '`' :: rest =>
        match tokenizeAux fuel rest with
        | some ts => some (Tok.ident ⟨ids⟩ :: ts)
        | none => none
      | _ => none
    else
      let tok : Option Tok :=
        if c = '+' then some Tok.plus
        else if c = '-' then some Tok.minus
        else if c = '*' then some Tok.star
        else if c = '/' then some Tok.slash
        else if c = '(' then some Tok.lparen
        else if c = ')' then some Tok.rparen
        else none
      match tok with
      | some t =>
        match tokenizeAux fuel cs with
        | some ts => some (t :: ts)
        | none => none
      | none => none

/-- Tokenize a formula. -/
def tokenize (s : String) : Option (List Tok) :=
  tokenizeAux (s.data.length + 1) s.data

/-- A value of the expression engine: a scalar or a column vector. -/
inductive EV where
  | sc (v : Int)
  | col (vs : List Int)
  deriving DecidableEq, Repr

/-- Apply a binary operation elementwise with scalar broadcasting. -/
def evApply (op : Int → Int → Int) : EV → EV → EV
  | EV.sc a, EV.sc b => EV.sc (op a b)
  | EV.sc a, EV.col bs => EV.col (bs.map (fun b => op a b))
  | EV.col as, EV.sc b => EV.col (as.map (fun a => op a b))
  | EV.col as, EV.col bs => EV.col ((as.zip bs).map (fun p => op p.1 p.2))

/-- Negate a value. -/
def evNeg : EV → EV
  | EV.sc a => EV.sc (-a)
  | EV.col as => EV.col (as.map (fun a => -a))

mutual

/-- Parse and evaluate a factor: identifier, literal, unary minus or
parenthesised expression.  Mutually sized with the term and expression
parsers through the shared fuel. -/
def parseFactor : Nat → Table → List Tok → Option (EV × List Tok)
  | 0, _, _ => none
  | _ + 1, t, Tok.ident s :: rest =>
    (match t.cols.find? (fun p => p.1 = s) with
     | some p => some (EV.col p.2, rest)
     | none => none)
  | _ + 1, _, Tok.num v :: rest => some (EV.sc v, rest)
  | fuel + 1, t, Tok.minus :: rest =>
    (match parseFactor fuel t rest with
     | some (v, rest2) => some (evNeg v, rest2)
     | none => none)
  | fuel + 1, t, Tok.lparen :: rest =>
    (match parseExprFuel fuel t rest with
     | some (v, Tok.rparen :: rest2) => some (v, rest2)
     | _ => none)
  | _ + 1, _, _ => none

/-- Parse the `(* | /) factor` continuation of a term. -/
def parseTermRest : Nat → Table → EV → List Tok → Option (EV × List Tok)
  | 0, _, _, _ => none
  | fuel + 1, t, acc, Tok.star :: rest =>
    (match parseFactor fuel t rest with
     | some (v, rest2) => parseTermRest fuel t (evApply (· * ·) acc v) rest2
     | none => none)
  | fuel + 1, t, acc, Tok.slash :: rest =>
    (match parseFactor fuel t rest with
     | some (v, rest2) => parseTermRest fuel t (evApply (· / ·) acc v) rest2
     | none => none)
  | _ + 1, _, acc, rest => some (acc, rest)

/-- Parse a term: `factor ((* | /) factor)*`. -/
def parseTerm : Nat → Table → List Tok → Option (EV × List Tok)
  | 0, _, _ => none
  | fuel + 1, t, toks =>
    (match parseFactor fuel t toks with
     | some (v, rest) => parseTermRest fuel t v rest
     | none => none)

/-- Parse the `(+ | -) term` continuation of an expression. -/
def parseExprRest : Nat → Table → EV → List Tok → Option (EV × List Tok)
  | 0, _, _, _ => none
  | fuel + 1, t, acc, Tok.plus :: rest =>
    (match parseTerm fuel t rest with
     | some (v, rest2) => parseExprRest fuel t (evApply (· + ·) acc v) rest2
     | none => none)
  | fuel + 1, t, acc, Tok.minus :: rest =>
    (match parseTerm fuel t rest with
     | some (v, rest2) => parseExprRest fuel t (evApply (· - ·) acc v) rest2
     | none => none)
  | _ + 1, _, acc, rest => some (acc, rest)

/-- Parse an expression: `term ((+ | -) term)*`. -/
def parseExprFuel : Nat → Table → List Tok → Option (EV × List Tok)
  | 0, _, _ => none
  | fuel + 1, t, toks =>
    (match parseTerm fuel t toks with
     | some (v, rest) => parseExprRest fuel t v rest
     | none => none)

end

/-- `df.eval(formula)`: tokenize, parse, require all tokens consumed. -/
def evalFormula (t : Table) (formula : String) : Option EV :=
  match tokenize formula with
  | some toks =>
    match parseExprFuel (toks.length + formula.data.length + 1) t toks with
    | some (v, []) => some v
    | _ => none
  | none => none

/-- Broadcast an engine value to a column of the length of the table. -/
def broadcastEV (t : Table) : EV → List Int
  | EV.sc v => List.replicate t.nRows v
  | EV.col vs => vs

/-- The per-formula loop of lines 131-143.  `pnames` is
`parameter_names`, captured from the columns of the argument before the
loop (line 97).  On a failed evaluation the error is re-raised in strict
mode — the mutations already applied remain visible in the first
component, which models the caller's object. -/
def mutateLoop (x : Table) (pnames : List String) :
    List (String × String) → Bool → Table × Option Err
  | [], _ => (x, none)
  | (c, f) :: rest, ig =>
    match evalFormula x (escape_column_names f pnames) with
    | some v => mutateLoop (tAssign x c (broadcastEV x v)) pnames rest ig
    | none =>
      if ig then mutateLoop x pnames rest ig
      else (x, some (.evalError (escape_column_names f pnames)))

/-- Line 107: the cleaned contrast elements of all formulas, joined by
`reduce` with the initial value `[]`. -/
def contrastElements (formula_expr : List (String × String)) : List String :=
  (formula_expr.map (fun p => clean_contrast_elements p.2)).foldl
    (fun a b => a ++ b) []

/-- Line 118: the contrast elements absent from the columns of the
table. -/
def missingContrasts (x : Table) (formula_expr : List (String × String)) :
    List String :=
  (contrastElements formula_expr).filter (fun e => ¬ x.colNames.contains e)

/-- `mutate_from_expr_list` (lines 90-149).  The formula mapping is an
association list in insertion order (a Python dict); the dict-coercion
branch of lines 93-94 is the identity for dict arguments and is not
modelled.  The first component of the result is the final state of the
caller's table object, the second the exception raised, if any. -/
def mutate_from_expr_list (x : Table) (formula_expr : List (String × String))
    (ignore_errors : Bool) : Table × Option Err :=
  if ¬ (missingContrasts x formula_expr).isEmpty ∧ ¬ ignore_errors then
    (x, some (.valueError (missingContrasts x formula_expr)))
  else
    mutateLoop x x.colNames formula_expr ignore_errors

/-! ## Abundance-Contrast Orchestrator
(`get_abundance_contrast_draws`, lines 151-225) -/

/-- The model-description object (`model_input`). -/
structure ModelInput where
  /-- Column labels of the fixed-effect design matrix `X`. -/
  X_cols : List String
  /-- Number of random-effect groups (line 171, default 0). -/
  n_random_eff : Nat
  /-- Column labels of `X_random_effect`, when present. -/
  X_random_effect_cols : Option (List String)
  /-- Column labels of `X_random_effect_2`, when present. -/
  X_random_effect_2_cols : Option (List String)
  deriving DecidableEq, Repr

/-- The `data` dictionary passed to the orchestrator. -/
structure DataIn where
  cell_group : Option String
  model_input : ModelInput
  fit : Fit
  deriving DecidableEq, Repr

/-- The random-effect stage of lines 173-186 (and, with the primed
column names of lines 194-195, lines 189-202).  `sumValueCol` is the
column the groupby sum selects (`.value` at line 178, `value` at line
194), `groupVarCol` the grouping column (`variable` at line 178,
`.variable` at line 194), `mutCol` the column negated and pivoted
(`.value` in both branches, lines 179/184 and 195/200).  Every branch
fails: the first selects the nonexistent `.value`, the second groups by
the nonexistent `.variable`. -/
def randomEffectStage (draws : DF) (reDF : DF) (labels : List String)
    (groupVarCol sumValueCol mutCol : String) : Except Err DF := do
  let summed ← dfGroupbySum reDF
    ["C", "chain__", "iter__", "draw__", groupVarCol] sumValueCol
  let summed ← dfMapCol summed mutCol
    (fun c => match c with | Cell.i v => Cell.i (-v) | c => c)
  let mVal ← dfMaxCol reDF "M"
  let summed := dfSetConstCol summed "M"
    (match mVal with | some m => Cell.i (m + 1) | none => Cell.na)
  let unioned := dfConcat reDF summed
  let wide ← dfPivotNamed unioned ["chain__", "iter__", "draw__"] "C" mutCol
  let wide ← dfSetValueColumns wide 3 labels
  pure (dfMergeIndexLeft draws wide)

/-- `get_abundance_contrast_draws` (lines 151-225).  The function never
returns normally: after the optional random-effect and contrast stages
(each of which raises on any input that enters it), line 210 evaluates
the undefined name `y` and raises a NameError, so the label attachment,
the five-column short-circuit of lines 216-218 and the convergence
diagnostics of lines 220-225 are unreachable. -/
def get_abundance_contrast_draws (data : DataIn)
    (contrasts : Option (List (String × String))) : Except Err DF := do
  let beta_factor_of_interest := data.model_input.X_cols
  let betaRecs ← draws_to_tibble_x_y data.fit "beta" "C" "M"
  let beta ← pivotBeta betaRecs beta_factor_of_interest
  let draws := dfDrop beta ["variable"]
  let n_random_eff := data.model_input.n_random_eff
  let draws ←
    if n_random_eff > 0 then do
      let labels := (data.model_input.X_random_effect_cols).getD []
      let reRecs ← draws_to_tibble_x_y data.fit "random_effect" "C" "M"
      randomEffectStage draws (toDF reRecs) labels "variable" ".value" ".value"
    else pure draws
  let draws ←
    if n_random_eff > 1 then do
      let labels := (data.model_input.X_random_effect_2_cols).getD []
      let reRecs ← draws_to_tibble_x_y data.fit "random_effect_2" "C" "M"
      randomEffectStage draws (toDF reRecs) labels ".variable" "value" ".value"
    else pure draws
  -- Line 207: the call `mutate_from_expr_list(draws, contrasts, TRUE)`
  -- evaluates the undefined name `TRUE` while building the argument
  -- list, so a truthy `contrasts` raises before the evaluator runs.
  if (match contrasts with | some cs => !cs.isEmpty | none => false) then
    throw (.nameError "TRUE")
  else
    -- Line 210: `if y is not None` reads the undefined name `y`.
    -- Everything after this line is dead code; the `draws` frame built
    -- so far is discarded by the exception.
    let _ := draws
    throw (.nameError "y")

/-! ## Concrete instances used by the theorems -/

/-- A fit with one fixed-effect column and one random-effect column,
one chain with two iterations.  The engine names are the standard
`name[row,col]` forms. -/
def fitRE : Fit :=
  { cols := [("beta", "beta[1,1]", [10, 20]),
             ("random_effect", "random_effect[1,1]", [5, 6])],
    idRows := [(1, 1, 1), (1, 2, 2)] }

/-- Orchestrator input with one declared random-effect group. -/
def dataOneRE : DataIn :=
  { cell_group := some "cell_group",
    model_input :=
      { X_cols := ["(Intercept)"], n_random_eff := 1,
        X_random_effect_cols := some ["grp1"],
        X_random_effect_2_cols := none },
    fit := fitRE }

/-- A second fit, two chains with one iteration each and two
fixed-effect cells. -/
def fitRE2 : Fit :=
  { cols := [("beta", "beta[1,1]", [1, 2]), ("beta", "beta[1,2]", [3, 4]),
             ("random_effect", "random_effect[1,1]", [7, 8]),
             ("random_effect", "random_effect[1,2]", [9, 10])],
    idRows := [(1, 1, 1), (2, 1, 2)] }

/-- Orchestrator input with two declared random-effect groups. -/
def dataTwoRE : DataIn :=
  { cell_group := some "cell_group",
    model_input :=
      { X_cols := ["(Intercept)"], n_random_eff := 2,
        X_random_effect_cols := some ["grpA", "grpB"],
        X_random_effect_2_cols := some ["grp2A"] },
    fit := fitRE2 }

/-- Orchestrator input with no random-effect group. -/
def dataNoRE : DataIn :=
  { cell_group := some "cell_group",
    model_input :=
      { X_cols := ["(Intercept)"], n_random_eff := 0,
        X_random_effect_cols := none,
        X_random_effect_2_cols := none },
    fit := fitRE }

/-- A fit whose draw table contains a column named plainly `beta` — a
scalar parameter without bracketed indices, hence unparseable by the
index-extraction pattern. -/
def fitScalarBeta : Fit :=
  { cols := [("beta", "beta", [1, 2])],
    idRows := [(1, 1, 1), (1, 2, 2)] }

/-- An engine summary whose columns omit `N_Eff` and `R_hat` (the
diagnostic columns the spec allows the engine to omit). -/
def summaryNoDiag : SummaryFit :=
  { sumCols := ["Mean", "5%", "25%", "50%", "75%", "95%"],
    sumRows := [("beta[1,1]", [Cell.i 3, Cell.i 1, Cell.i 2, Cell.i 3,
                               Cell.i 4, Cell.i 5])] }

/-- A fit whose only draw column is the scalar `beta`, used as the
concrete instance of the amended C3 theorem. -/
def fitScalarBeta2 : Fit :=
  { cols := [("beta", "beta", [3])], idRows := [(2, 1, 1)] }

/-- The reshaped output of `fitRE2` for the parameter `beta`, used by
the C2 witness. -/
def tRE2 : List DrawRec :=
  [⟨1, 1, 1, "beta", 1, 1, 1⟩, ⟨2, 1, 2, "beta", 1, 1, 2⟩,
   ⟨1, 1, 1, "beta", 1, 2, 3⟩, ⟨2, 1, 2, "beta", 1, 2, 4⟩]

/-- Table with the single column `a`; the identifier `b` of the C7
formula is missing from it. -/
def tableOnlyA : Table := { cols := [("a", [1, 2])] }

/-- Table with columns `a` and `b` for the C10 witness. -/
def tableAB : Table := { cols := [("a", [1, 2]), ("b", [10, 20])] }

/-! ## Supporting lemmas -/

/-- If `l.drop n` uncovers a cons, its tail is shorter than `l`. -/
theorem length_lt_of_drop_cons {l t : List Char} {n : Nat} {c : Char}
    (h : l.drop n = c :: t) : t.length < l.length := by
  have h2 := congrArg List.length h
  simp only [List.length_drop, List.length_cons] at h2
  omega

/-- A successful fraction match consumes at least one character. -/
theorem matchFracAt_length {l r : List Char} (h : matchFracAt l = some r) :
    r.length < l.length := by
  unfold matchFracAt at h
  split at h
  · exact absurd h (by simp)
  · rename_i hd1
    split at h
    · rename_i r1 hdrop
      have hr1 : r1.length < l.length := length_lt_of_drop_cons hdrop
      split at h
      · exact absurd h (by simp)
      · rename_i hd2
        split at h
        · rename_i r2 hdrop2
          cases h
          exact Nat.lt_trans (length_lt_of_drop_cons hdrop2) hr1
        · rename_i w r2 hdrop2
          split at h
          · cases h
            have h3 := congrArg List.length hdrop2
            simp only [List.length_drop, List.length_cons] at h3
            omega
          · exact absurd h (by simp)
        · exact absurd h (by simp)
    · exact absurd h (by simp)

/-- A successful decimal-core match consumes at least one character. -/
theorem matchDecCore_length {l r : List Char} (h : matchDecCore l = some r) :
    r.length < l.length := by
  unfold matchDecCore at h
  split at h
  · exact absurd h (by simp)
  · rename_i hd1
    split at h
    · rename_i r1 hdrop
      have hr1 : r1.length < l.length := length_lt_of_drop_cons hdrop
      split at h
      · exact absurd h (by simp)
      · rename_i hd2
        split at h
        · rename_i r2 hdrop2
          cases h
          exact Nat.lt_trans (length_lt_of_drop_cons hdrop2) hr1
        · rename_i w r2 hdrop2
          split at h
          · cases h
            have h3 := congrArg List.length hdrop2
            simp only [List.length_drop, List.length_cons] at h3
            omega
          · exact absurd h (by simp)
        · exact absurd h (by simp)
    · exact absurd h (by simp)

/-- A successful decimal match consumes at least one character. -/
theorem matchDecAt_length {l r : List Char} (h : matchDecAt l = some r) :
    r.length < l.length := by
  unfold matchDecAt at h
  split at h
  · exact absurd h (by simp)
  · rename_i c rest
    split at h
    · exact Nat.lt_trans (matchDecCore_length h) (by simp)
    · exact matchDecCore_length h

/-- `natListLtB` is transitive. -/
theorem natListLtB_trans :
    ∀ {a b c : List Nat}, natListLtB a b = true → natListLtB b c = true →
      natListLtB a c = true
  | [], [], _, h1, _ => by simp [natListLtB] at h1
  | [], _ :: _, [], _, h2 => by simp [natListLtB] at h2
  | [], _ :: _, _ :: _, _, _ => by simp [natListLtB]
  | _ :: _, [], _, h1, _ => by simp [natListLtB] at h1
  | _ :: _, _ :: _, [], _, h2 => by simp [natListLtB] at h2
  | a :: as, b :: bs, c :: cs, h1, h2 => by
    simp only [natListLtB] at h1 h2 ⊢
    split at h1
    · rename_i hab
      split at h2
      · rename_i hbc
        rw [if_pos (Nat.lt_trans hab hbc)]
      · split at h2
        · exact absurd h2 (by simp)
        · rename_i hcb hbc
          have hbc2 : b = c := by omega
          subst hbc2
          rw [if_pos hab]
    · split at h1
      · exact absurd h1 (by simp)
      · rename_i hba hab
        have hab2 : a = b := by omega
        subst hab2
        split at h2
        · rename_i hac
          rw [if_pos hac]
        · split at h2
          · exact absurd h2 (by simp)
          · rename_i hca hac
            rw [if_neg hac, if_neg hca]
            exact natListLtB_trans h1 h2

/-- `natListLtB` is asymmetric. -/
theorem natListLtB_asymm :
    ∀ {a b : List Nat}, natListLtB a b = true → natListLtB b a = false
  | [], [], h => by simp [natListLtB] at h
  | [], _ :: _, _ => by simp [natListLtB]
  | _ :: _, [], h => by simp [natListLtB] at h
  | a :: as, b :: bs, h => by
    simp only [natListLtB] at h ⊢
    split at h
    · rename_i hab
      rw [if_neg (Nat.lt_asymm hab), if_pos hab]
    · split at h
      · exact absurd h (by simp)
      · rename_i hba hab
        rw [if_neg hab, if_neg hba]
        exact natListLtB_asymm h

/-- Two lists neither of which is lexicographically below the other are
equal. -/
theorem natListLtB_conn :
    ∀ {a b : List Nat}, natListLtB a b = false → natListLtB b a = false → a = b
  | [], [], _, _ => rfl
  | [], _ :: _, h1, _ => by simp [natListLtB] at h1
  | _ :: _, [], _, h2 => by simp [natListLtB] at h2
  | a :: as, b :: bs, h1, h2 => by
    simp only [natListLtB] at h1 h2
    split at h1
    · exact absurd h1 (by simp)
    · split at h1
      · rename_i hba
        rw [if_pos hba] at h2
        exact absurd h2 (by simp)
      · rename_i hba hab
        have h3 : a = b := by omega
        subst h3
        rw [if_neg (Nat.lt_irrefl a), if_neg (Nat.lt_irrefl a)] at h2
        rw [natListLtB_conn h1 h2]

/-- A common prefix cancels in the lexicographic comparison. -/
theorem natListLtB_append {s a b : List Nat} :
    natListLtB (s ++ a) (s ++ b) = natListLtB a b := by
  induction s with
  | nil => rfl
  | cons c cs ih =>
    simp only [List.cons_append, natListLtB, Nat.lt_irrefl, if_false]
    exact ih

/-! ## Claim theorems -/

/-- C1.  The claim states that for a random-effect group the
orchestrator derives a synthetic level `K+1` as the negated per-key sum
and unions it into the long table before pivoting.  In the source no
such level is ever derived: the reshaped random-effect table names its
value column `value`, while line 178 selects the nonexistent column
`.value` from the groupby, so on every input that enters the
random-effect branch the orchestrator raises a KeyError before the sum,
the union and the pivot.  Here, on a fit that declares one random-effect
group with one observed level, the whole orchestrator evaluates to that
KeyError. -/
theorem c1_random_effect_branch_raises_key_error :
    get_abundance_contrast_draws dataOneRE none =
      .error (.keyError ".value") := by decide

/-- C6.  The claim states that the left-merges of random-effect matrices
preserve the primary row count and that a growing merge raises.  No
merge is ever reached and no row-count validation exists in the source:
on an input with two declared random-effect groups the first branch
already raises the KeyError of line 178 (and the second branch would
raise a KeyError on the grouping column `.variable` at line 194), so the
orchestrator fails before any merge executes. -/
theorem c6_merge_is_unreachable_key_error :
    get_abundance_contrast_draws dataTwoRE none =
      .error (.keyError ".value") := by decide

/-- C9.  The claim describes the five-column short-circuit and the
diagnostics path of lines 216-225.  Neither is reachable: line 210
evaluates the undefined name `y`, so every invocation that survives the
earlier stages raises a NameError first — shown here on an input with no
random effects and no contrasts, which reaches line 210 directly. -/
theorem c9_orchestrator_raises_name_error_y :
    get_abundance_contrast_draws dataNoRE none = .error (.nameError "y") := by
  decide

/-- C8.  The claim states that a summary lacking the
effective-sample-size and r-hat columns has them injected as NaN and
that their absence never causes an error.  In the source the column
selection of line 60 lists `N_Eff` and `R_hat` unconditionally, so when
the engine omits them the selection raises a KeyError naming both, and
the injection of lines 81-84 is unreachable in exactly the case it was
written for. -/
theorem c8_summary_missing_diag_columns_raise :
    summary_to_tibble summaryNoDiag "beta" "C" (some "M") [5, 25, 50, 75, 95] =
      .error (.keyErrorCols ["N_Eff", "R_hat"]) := by decide

/-- C4.  The claim states that the Draw Reshaper selects exactly the
draw columns whose variable component matches `variable_pattern`.  In
the source the pattern only feeds the dead `par_names` binding of line
19: the draws request of line 22 and the melt filter of line 25 both
hardcode the family `beta`.  On a fit carrying both `beta` and
`random_effect` draws, with pattern `random_effect`: the pattern does
match a variable name, yet the melt selects only the `beta` column and
the final exact-name filter then leaves the output empty — the
random-effect draws are never selected. -/
theorem c4_selection_hardcodes_beta_family :
    parNames fitRE "random_effect" = ["random_effect"] ∧
    meltValueVars (drawsPd fitRE ["beta", "chain__", "iter__", "draw__"]) =
      [("beta[1,1]", [10, 20])] ∧
    draws_to_tibble_x_y fitRE "random_effect" "C" "M" = .ok [] := by decide

/-- C3, counterexample.  The claim states that an unparseable selected
draw-column is silently dropped and never fatal.  On a fit whose draw
table contains the scalar column `beta` (no bracketed indices) the
reshaper raises: the extraction of line 29 leaves missing index values
and `astype(int)` at line 32 fails on them. -/
theorem c3_counterexample_unparseable_name_is_fatal :
    draws_to_tibble_x_y fitScalarBeta "beta" "C" "M" =
      .error .intCastNaN := by decide

/-- C5, counterexample.  The claim states that the Index Extractor
recovers `(v, r, c)` from `v ++ "[" ++ r ++ "," ++ c ++ "]"` for every
variable name made of letters, digits, underscores and dots.  For
`v = "1a"` the optional chain-prefix group `([1-9]+)?` of the pattern
captures the leading `1`, and the extractor returns variable `a`. -/
theorem c5_counterexample_leading_digit_eaten :
    extractVarXY "1a[1,2]" = some ("a", 1, 2) ∧
    extractVarXY "1a[1,2]" ≠ some ("1a", 1, 2) := by decide

/-- `takeWhile` over an append stops exactly at the first element of the
suffix when the prefix satisfies the predicate throughout and the suffix
head does not. -/
theorem takeWhile_append_stop {p : Char → Bool} :
    ∀ (xs : List Char) {y : Char} (ys : List Char),
      (∀ x ∈ xs, p x = true) → p y = false →
      (xs ++ y :: ys).takeWhile p = xs
  | [], y, ys, _, hy => by simp [List.takeWhile_cons, hy]
  | x :: xs, y, ys, hall, hy => by
    have hx : p x = true := hall x (by simp)
    have ih := takeWhile_append_stop xs ys (fun a ha => hall a (by simp [ha])) hy
    show ((x :: (xs ++ y :: ys)).takeWhile p) = x :: xs
    rw [List.takeWhile_cons, hx]
    simp only [if_true, ih]

/-- The bracket part of the pattern, `\[([0-9]+),([0-9]+)`, matched
against `[` ++ digits ++ `,` ++ digits ++ `]`, captures the two digit
groups. -/
theorem matchBracketPart_eq {r c : List Char}
    (hr : r.all isDigitChar = true) (hrne : r ≠ [])
    (hc : c.all isDigitChar = true) (hcne : c ≠ []) :
    matchBracketPart ('[' :: (r ++ ',' :: (c ++ [']']))) = some (r, c) := by
  have hrw : (r ++ ',' :: (c ++ [']'])).takeWhile isDigitChar = r :=
    takeWhile_append_stop r _ (fun x hx => List.all_eq_true.mp hr x hx)
      (by decide)
  have hcw : (c ++ (']' :: [])).takeWhile isDigitChar = c :=
    takeWhile_append_stop c _ (fun x hx => List.all_eq_true.mp hc x hx)
      (by decide)
  have hre : r.isEmpty = false := by
    cases r with
    | nil => exact absurd rfl hrne
    | cons a l => rfl
  have hce : c.isEmpty = false := by
    cases c with
    | nil => exact absurd rfl hcne
    | cons a l => rfl
  simp only [matchBracketPart, if_pos rfl, hrw, hre, Bool.false_eq_true,
    if_false, List.drop_left]
  simp [hcw, hce]

/-- The variable-and-bracket part of the pattern matched against a
well-formed name whose remainder starts with `[`: the greedy variable
munch takes exactly the variable characters. -/
theorem matchVarPart_eq {v r c : List Char}
    (hv : v.all isVarChar = true) (hvne : v ≠ [])
    (hr : r.all isDigitChar = true) (hrne : r ≠ [])
    (hc : c.all isDigitChar = true) (hcne : c ≠ []) :
    matchVarPart (v ++ '[' :: (r ++ ',' :: (c ++ [']']))) = some (v, r, c) := by
  have hvw : (v ++ '[' :: (r ++ ',' :: (c ++ [']']))).takeWhile isVarChar = v :=
    takeWhile_append_stop v _ (fun x hx => List.all_eq_true.mp hv x hx)
      (by decide)
  have hve : v.isEmpty = false := by
    cases v with
    | nil => exact absurd rfl hvne
    | cons a l => rfl
  simp only [matchVarPart, hvw, hve, Bool.false_eq_true, if_false,
    List.drop_left, matchBracketPart_eq hr hrne hc hcne]

/-- C5, amended.  The extractor recovers exactly `(v, r, c)` from
`v ++ "[" ++ r ++ "," ++ c ++ "]"` whenever the variable name `v` is a
nonempty string of letters, digits, underscores and dots whose first
character is neither a digit `1..9` nor a dot (otherwise the optional
chain-prefix part `([1-9]+)?\.?` of the pattern absorbs a prefix of the
name, as the counterexample shows), and `r`, `c` are nonempty digit
strings. -/
theorem c5_extractor_recovers_triple_amended
    (h0 : Char) (t r c : List Char)
    (hv : (h0 :: t).all isVarChar = true)
    (hchain : isChainChar h0 = false) (hdot : h0 ≠ '.')
    (hr : r.all isDigitChar = true) (hrne : r ≠ [])
    (hc : c.all isDigitChar = true) (hcne : c ≠ []) :
    extractVarXY ⟨h0 :: (t ++ '[' :: (r ++ ',' :: (c ++ [']'])))⟩ =
      some (⟨h0 :: t⟩, digitsToNat r, digitsToNat c) := by
  have hvp : matchVarPart (h0 :: (t ++ '[' :: (r ++ ',' :: (c ++ [']'])))) =
      some (h0 :: t, r, c) := by
    have h2 := matchVarPart_eq (v := h0 :: t) hv (by simp) hr hrne hc hcne
    rw [List.cons_append] at h2
    exact h2
  have hdvp : matchDotVarPart (h0 :: (t ++ '[' :: (r ++ ',' :: (c ++ [']'])))) =
      some (h0 :: t, r, c) := by
    simp only [matchDotVarPart, if_neg hdot]
    exact hvp
  have htw : ((h0 :: (t ++ '[' :: (r ++ ',' :: (c ++ [']'])))).takeWhile
      isChainChar) = [] := by
    rw [List.takeWhile_cons, hchain]
    simp
  have hma : matchAt (h0 :: (t ++ '[' :: (r ++ ',' :: (c ++ [']'])))) =
      some ⟨none, h0 :: t, r, c⟩ := by
    unfold matchAt
    rw [htw]
    simp only [List.length_nil]
    unfold tryChainLen
    rw [hdvp]
  have hse : searchExtract (h0 :: (t ++ '[' :: (r ++ ',' :: (c ++ [']'])))) =
      some ⟨none, h0 :: t, r, c⟩ := by
    unfold searchExtract
    rw [hma]
  unfold extractVarXY
  rw [show (⟨h0 :: (t ++ '[' :: (r ++ ',' :: (c ++ [']'])))⟩ : String).data =
      h0 :: (t ++ '[' :: (r ++ ',' :: (c ++ [']']))) from rfl, hse]

/-- C3, amended.  A parse failure in the Draw Reshaper is fatal, not a
silent drop: whenever some melted record carries a parameter name the
extraction pattern does not match, the whole reshaper raises the
integer-conversion error of lines 32-33 (pandas IntCastingNaNError),
whatever the requested parameter. -/
theorem c3_unparseable_melted_column_is_fatal (fit : Fit) (par x y : String)
    (h : (meltedOf fit).any
      (fun m => (extractVarXY m.parameter).isNone) = true) :
    draws_to_tibble_x_y fit par x y = .error .intCastNaN := by
  have hall : ((meltedOf fit).all
      (fun m => (extractVarXY m.parameter).isSome)) = false := by
    obtain ⟨m, hm, hnone⟩ := List.any_eq_true.mp h
    cases hA : (meltedOf fit).all
        (fun m => (extractVarXY m.parameter).isSome) with
    | false => rfl
    | true =>
      have h2 := List.all_eq_true.mp hA m hm
      rw [Option.isNone_iff_eq_none] at hnone
      rw [hnone] at h2
      exact absurd h2 (by simp)
  rw [meltedOf] at hall
  simp only [draws_to_tibble_x_y, astypeExtract, hall, Bool.false_eq_true,
    if_false]
  rfl

/-- Witness for the amended C3 theorem at a concrete fit with an
unparseable scalar draw column. -/
theorem c3_witness :
    draws_to_tibble_x_y fitScalarBeta2 "beta" "C" "M" =
      .error .intCastNaN :=
  c3_unparseable_melted_column_is_fatal fitScalarBeta2 "beta" "C" "M"
    (by decide)

/-- Witness for the amended C5 theorem: the variable name `a_b.c1`
(letters, digits, an underscore and a dot, starting with a letter) with
row `12` and column `3` is recovered exactly. -/
theorem c5_witness : extractVarXY "a_b.c1[12,3]" = some ("a_b.c1", 12, 3) :=
  c5_extractor_recovers_triple_amended 'a' ['_', 'b', '.', 'c', '1']
    ['1', '2'] ['3'] (by decide) (by decide) (by decide) (by decide)
    (by decide) (by decide) (by decide)

/-- The draw numbers assigned to one group form the dense range starting
at `n`. -/
theorem assignSeq_map_draw :
    ∀ (g : List DrawRec) (n : Nat),
      (assignSeq g n).map (fun r => r.draw) = List.range' n g.length
  | [], n => by simp [assignSeq]
  | r :: rs, n => by
    simp only [assignSeq, List.map_cons, List.length_cons, List.range'_succ]
    rw [assignSeq_map_draw rs (n + 1)]
    rfl

/-- `assignSeq` keeps the group size. -/
theorem assignSeq_length :
    ∀ (g : List DrawRec) (n : Nat), (assignSeq g n).length = g.length
  | [], _ => rfl
  | _ :: rs, n => by
    simp only [assignSeq, List.length_cons, assignSeq_length rs (n + 1)]

/-- Every record of `assignSeq` is a record of the group with its draw
number overwritten. -/
theorem mem_assignSeq :
    ∀ {g : List DrawRec} {n : Nat} {b : DrawRec}, b ∈ assignSeq g n →
      ∃ a ∈ g, ∃ m, b = setDraw a m
  | [], _, _, h => by simp [assignSeq] at h
  | r :: rs, n, b, h => by
    rw [assignSeq] at h
    rcases List.mem_cons.mp h with h1 | h2
    · exact ⟨r, by simp, n, h1⟩
    · obtain ⟨a, ha, m, hm⟩ := mem_assignSeq h2
      exact ⟨a, by simp [ha], m, hm⟩

/-- Overwriting the draw number does not change the group key. -/
theorem gKey_setDraw (a : DrawRec) (m : Nat) : gKey (setDraw a m) = gKey a :=
  rfl

/-- Membership in the seen-accumulator deduplication. -/
theorem mem_dedupSeen {α : Type} [DecidableEq α] :
    ∀ {l seen : List α} {x : α},
      x ∈ dedupSeen seen l ↔ (x ∈ l ∧ x ∉ seen)
  | [], seen, x => by simp [dedupSeen]
  | k :: ks, seen, x => by
    rw [dedupSeen]
    by_cases hc : seen.contains k
    · rw [if_pos hc]
      have hkseen : k ∈ seen := List.elem_iff.mp hc
      rw [mem_dedupSeen]
      constructor
      · rintro ⟨h1, h2⟩
        exact ⟨by simp [h1], h2⟩
      · rintro ⟨h1, h2⟩
        rcases List.mem_cons.mp h1 with h3 | h3
        · exact absurd (h3 ▸ hkseen) h2
        · exact ⟨h3, h2⟩
    · rw [if_neg hc]
      have hknot : k ∉ seen := by
        intro hk
        exact hc (List.elem_iff.mpr hk)
      constructor
      · intro h
        rcases List.mem_cons.mp h with h3 | h3
        · exact ⟨by simp [h3], h3 ▸ hknot⟩
        · have := mem_dedupSeen.mp h3
          refine ⟨by simp [this.1], ?_⟩
          intro hx
          exact this.2 (by simp [hx])
      · rintro ⟨h1, h2⟩
        rcases List.mem_cons.mp h1 with h3 | h3
        · simp [h3]
        · by_cases hxk : x = k
          · simp [hxk]
          · refine List.mem_cons.mpr (Or.inr ?_)
            exact mem_dedupSeen.mpr ⟨h3, by simp [hxk, h2]⟩

/-- The deduplication emits no duplicates. -/
theorem nodup_dedupSeen {α : Type} [DecidableEq α] :
    ∀ (l seen : List α), (dedupSeen seen l).Nodup
  | [], _ => List.nodup_nil
  | k :: ks, seen => by
    rw [dedupSeen]
    by_cases hc : seen.contains k
    · rw [if_pos hc]
      exact nodup_dedupSeen ks seen
    · rw [if_neg hc]
      rw [List.nodup_cons]
      refine ⟨?_, nodup_dedupSeen ks (k :: seen)⟩
      intro hk
      exact (mem_dedupSeen.mp hk).2 (by simp)

/-- Membership in `dedupKeys`. -/
theorem mem_dedupKeys {α : Type} [DecidableEq α] {l : List α} {x : α} :
    x ∈ dedupKeys l ↔ x ∈ l := by
  rw [dedupKeys, mem_dedupSeen]
  simp

/-- `dedupKeys` has no duplicates. -/
theorem nodup_dedupKeys {α : Type} [DecidableEq α] (l : List α) :
    (dedupKeys l).Nodup :=
  nodup_dedupSeen l []

/-- A `flatMap` over duplicate-free keys whose function is nonempty only
at one key collapses to that single value. -/
theorem flatMap_eq_single {α β : Type} [DecidableEq α] (k : α) (B : List β) :
    ∀ (ks : List α) (F : α → List β), ks.Nodup →
      (∀ k2 ∈ ks, F k2 = if k2 = k then B else []) →
      ks.flatMap F = if k ∈ ks then B else []
  | [], F, _, _ => by simp
  | k2 :: ks, F, hnd, hF => by
    rw [List.flatMap_cons, hF k2 (by simp)]
    by_cases hek : k2 = k
    · subst hek
      rw [if_pos rfl, if_pos (by simp)]
      have hnotin : k2 ∉ ks := (List.nodup_cons.mp hnd).1
      rw [flatMap_eq_single k2 B ks F (List.nodup_cons.mp hnd).2
        (fun a ha => hF a (by simp [ha]))]
      rw [if_neg hnotin, List.append_nil]
    · rw [if_neg hek, List.nil_append]
      rw [flatMap_eq_single k B ks F (List.nodup_cons.mp hnd).2
        (fun a ha => hF a (by simp [ha]))]
      by_cases hk : k ∈ ks
      · rw [if_pos hk, if_pos (by simp [hk])]
      · rw [if_neg hk, if_neg ?_]
        intro hmem
        rcases List.mem_cons.mp hmem with h3 | h3
        · exact hek h3.symm
        · exact hk h3

/-- Filtering the groupby output to one group key extracts exactly the
renumbered block of that group. -/
theorem groupbyAssign_filter (l : List DrawRec) (k : String × Nat × Nat) :
    (groupbyAssign l).filter (fun r => gKey r = k) =
      assignSeq (l.filter (fun r => gKey r = k)) 1 := by
  unfold groupbyAssign
  rw [List.filter_flatMap]
  rw [flatMap_eq_single k (assignSeq (l.filter (fun r => gKey r = k)) 1)
    (dedupKeys (l.map gKey))
    (fun k2 => (assignSeq (l.filter (fun r => gKey r = k2)) 1).filter
      (fun r => gKey r = k))
    (nodup_dedupKeys _) ?_]
  · by_cases hk : k ∈ dedupKeys (l.map gKey)
    · rw [if_pos hk]
    · rw [if_neg hk]
      have hempty : l.filter (fun r => decide (gKey r = k)) = [] := by
        rw [List.filter_eq_nil_iff]
        intro a ha hcon
        apply hk
        rw [mem_dedupKeys]
        exact List.mem_map.mpr ⟨a, ha, of_decide_eq_true hcon⟩
      rw [hempty]
      rfl
  · intro k2 _
    by_cases he : k2 = k
    · subst he
      rw [if_pos rfl]
      rw [List.filter_eq_self]
      intro b hb
      obtain ⟨a, ha, m, rfl⟩ := mem_assignSeq hb
      have hak : gKey a = k2 :=
        of_decide_eq_true (List.mem_filter.mp ha).2
      simp [gKey_setDraw, hak]
    · rw [if_neg he]
      rw [List.filter_eq_nil_iff]
      intro b hb
      obtain ⟨a, ha, m, rfl⟩ := mem_assignSeq hb
      have hak : gKey a = k2 :=
        of_decide_eq_true (List.mem_filter.mp ha).2
      simp [gKey_setDraw, hak, he]

/-- Renumbering the draws of a group preserves any pairwise relation
that ignores the draw number. -/
theorem assignSeq_pairwise {R : DrawRec → DrawRec → Prop}
    (hR : ∀ a b na nb, R a b → R (setDraw a na) (setDraw b nb)) :
    ∀ (g : List DrawRec) (n : Nat), g.Pairwise R → (assignSeq g n).Pairwise R
  | [], _, _ => by simp [assignSeq]
  | r :: rs, n, h => by
    rw [assignSeq, List.pairwise_cons]
    rw [List.pairwise_cons] at h
    refine ⟨?_, assignSeq_pairwise hR rs (n + 1) h.2⟩
    intro b hb
    obtain ⟨a, ha, m, rfl⟩ := mem_assignSeq hb
    exact hR r a n m (h.1 a ha)

/-- A tagged record recovers the list element at its tag position. -/
theorem mem_tagIdx :
    ∀ {l : List DrawRec} {n : Nat} {p : DrawRec × Nat}, p ∈ tagIdx l n →
      n ≤ p.2 ∧ l.get? (p.2 - n) = some p.1
  | [], _, _, h => by simp [tagIdx] at h
  | r :: rs, n, p, h => by
    rw [tagIdx] at h
    rcases List.mem_cons.mp h with h1 | h2
    · subst h1
      refine ⟨Nat.le_refl n, ?_⟩
      have h0 : n - n = 0 := Nat.sub_self n
      simp [h0]
    · obtain ⟨hle, heq⟩ := mem_tagIdx h2
      refine ⟨by omega, ?_⟩
      have hidx : p.2 - n = (p.2 - (n + 1)) + 1 := by omega
      rw [hidx, List.get?_cons_succ]
      exact heq

/-- The tags of `tagIdx` increase along the list. -/
theorem pairwise_tagIdx_lt :
    ∀ (l : List DrawRec) (n : Nat),
      (tagIdx l n).Pairwise (fun p q => p.2 < q.2)
  | [], _ => by simp [tagIdx]
  | r :: rs, n => by
    rw [tagIdx, List.pairwise_cons]
    refine ⟨?_, pairwise_tagIdx_lt rs (n + 1)⟩
    intro q hq
    have := (mem_tagIdx hq).1
    omega

/-- The sort comparison is total. -/
theorem tagLeRel_total : IsTotal (DrawRec × Nat) tagLeRel := by
  constructor
  intro p q
  by_cases h : natListLtB (tagKey q) (tagKey p) = true
  · right
    simp [tagLeRel, tagLeB, natListLtB_asymm h]
  · left
    simp [tagLeRel, tagLeB]
    simpa using h

/-- The sort comparison is transitive. -/
theorem tagLeRel_trans : IsTrans (DrawRec × Nat) tagLeRel := by
  constructor
  intro p q r h1 h2
  simp only [tagLeRel, tagLeB, Bool.not_eq_true', Bool.not_eq_true] at h1 h2 ⊢
  by_cases h3 : natListLtB (tagKey r) (tagKey p) = true
  · by_cases h4 : natListLtB (tagKey p) (tagKey q) = true
    · exact absurd (natListLtB_trans h3 h4) (by simp [h2])
    · have h5 := natListLtB_conn h1 (by simpa using h4)
      rw [h5] at h2
      exact absurd h3 (by simp [h2])
  · simpa using h3

/-- Analysis of the sort comparison on two tagged records that agree on
the group key: the order is decided by the chain, with ties decided by
the tag. -/
theorem tagLe_key_analysis {p q : DrawRec × Nat}
    (hkey : gKey p.1 = gKey q.1) (hle : tagLeRel p q) (hne : p.2 ≠ q.2) :
    p.1.chain < q.1.chain ∨ (p.1.chain = q.1.chain ∧ p.2 < q.2) := by
  have hvar : p.1.variable_ = q.1.variable_ := congrArg Prod.fst hkey
  have hx : p.1.x = q.1.x := congrArg (fun t => t.2.1) hkey
  have hy : p.1.y = q.1.y := congrArg (fun t => t.2.2) hkey
  have hdp : tagKey p =
      (p.1.variable_.data.map (fun c => c.toNat + 1) ++ [0, p.1.x, p.1.y]) ++
        [p.1.chain, p.2] := by
    simp [tagKey]
  have hdq : tagKey q =
      (p.1.variable_.data.map (fun c => c.toNat + 1) ++ [0, p.1.x, p.1.y]) ++
        [q.1.chain, q.2] := by
    simp [tagKey, hvar, hx, hy]
  have hfalse0 : natListLtB (tagKey q) (tagKey p) = false := by
    have h2 := hle
    rw [tagLeRel, tagLeB, Bool.not_eq_true'] at h2
    exact h2
  have hfalse : natListLtB [q.1.chain, q.2] [p.1.chain, p.2] = false := by
    rw [hdp, hdq, natListLtB_append] at hfalse0
    exact hfalse0
  simp only [natListLtB] at hfalse
  split at hfalse
  · exact absurd hfalse (by simp)
  · rename_i hqp
    split at hfalse
    · rename_i hpq2
      exact Or.inl hpq2
    · rename_i hpq2
      have hceq : p.1.chain = q.1.chain := by omega
      split at hfalse
      · exact absurd hfalse (by simp)
      · rename_i h3
        exact Or.inr ⟨hceq, by omega⟩

/-- The sorted long table is, within each group key, ordered by chain
with ties in iteration order, provided the input records satisfy the
engine tie-order discipline. -/
theorem sortRecs_pairwise {recs : List DrawRec} (H : tieOrdered recs) :
    (sortRecs recs).Pairwise
      (fun a b => gKey a = gKey b → chainIterOrdered a b) := by
  unfold sortRecs
  rw [List.pairwise_map]
  have hsorted : (List.insertionSort tagLeRel (tagIdx recs 0)).Pairwise
      tagLeRel :=
    @List.sorted_insertionSort _ tagLeRel tagLeRelDecidable tagLeRel_total
      tagLeRel_trans (tagIdx recs 0)
  have hperm : List.Perm (List.insertionSort tagLeRel (tagIdx recs 0))
      (tagIdx recs 0) :=
    List.perm_insertionSort tagLeRel (tagIdx recs 0)
  have hne : (List.insertionSort tagLeRel (tagIdx recs 0)).Pairwise
      (fun p q : DrawRec × Nat => p.2 ≠ q.2) := by
    have h1 : (tagIdx recs 0).Pairwise (fun p q => p.2 ≠ q.2) :=
      (pairwise_tagIdx_lt recs 0).imp (fun h => Nat.ne_of_lt h)
    exact (hperm.pairwise_iff (fun h => Ne.symm h)).mpr h1
  refine (hsorted.and hne).imp_of_mem ?_
  intro p q hp hq hpq hkey
  obtain ⟨hle, hneq⟩ := hpq
  rcases tagLe_key_analysis hkey hle hneq with hlt | ⟨hceq, hilt⟩
  · exact Or.inl hlt
  · refine Or.inr ⟨hceq, ?_⟩
    have hpmem : p ∈ tagIdx recs 0 := (hperm.mem_iff).mp hp
    have hqmem : q ∈ tagIdx recs 0 := (hperm.mem_iff).mp hq
    obtain ⟨-, hpeq⟩ := mem_tagIdx hpmem
    obtain ⟨-, hqeq⟩ := mem_tagIdx hqmem
    rw [Nat.sub_zero] at hpeq hqeq
    obtain ⟨hplt, hpget⟩ := List.get?_eq_some.mp hpeq
    obtain ⟨hqlt, hqget⟩ := List.get?_eq_some.mp hqeq
    have hpair := List.pairwise_iff_get.mp H ⟨p.2, hplt⟩ ⟨q.2, hqlt⟩ hilt
    rw [hpget, hqget] at hpair
    exact hpair hkey hceq

/-- C2.  For every fit whose reshaping succeeds, and whose melted table
obeys the engine tie-order discipline (`tieOrdered`), the Draw Reshaper
output has, within each `(variable, row, col)` group, draw numbers that
are exactly the dense sequence `1..N` in list order, and the group rows
are ordered by ascending chain with ties ordered by the original
iteration order (non-decreasing iterations within a chain). -/
theorem c2_draw_reassignment_dense_and_ordered
    (fit : Fit) (par x y : String) (t : List DrawRec)
    (hok : draws_to_tibble_x_y fit par x y = .ok t)
    (H : tieOrdered (astypeRecs fit)) (k : String × Nat × Nat) :
    (t.filter (fun r => gKey r = k)).map (fun r => r.draw) =
      List.range' 1 (t.filter (fun r => gKey r = k)).length ∧
    (t.filter (fun r => gKey r = k)).Pairwise chainIterOrdered := by
  rw [draws_to_tibble_x_y, astypeExtract] at hok
  by_cases hall : (meltBeta fit.idRows
      (drawsPd fit ["beta", "chain__", "iter__", "draw__"])).all
      (fun m => (extractVarXY m.parameter).isSome) = true
  case neg =>
    rw [if_neg hall] at hok
    exact Except.noConfusion
      (show Except.error (α := List DrawRec) Err.intCastNaN = .ok t from hok)
  case pos =>
    rw [if_pos hall] at hok
    have h2 : Except.ok ((groupbyAssign (sortRecs (astypeRecs fit))).filter
        (fun r => decide (r.variable_ = par))) = Except.ok t := hok
    injection h2 with ht
    subst ht
    rw [List.filter_filter]
    by_cases hpar : k.1 = par
    case pos =>
      have hcong : ∀ a ∈ groupbyAssign (sortRecs (astypeRecs fit)),
          (decide (gKey a = k) && decide (a.variable_ = par)) =
            decide (gKey a = k) := by
        intro a _
        by_cases hk : gKey a = k
        · have hv : a.variable_ = par := by
            have h3 := congrArg Prod.fst hk
            simpa [gKey, hpar] using h3
          simp [hk, hv]
        · simp [hk]
      rw [List.filter_congr hcong, groupbyAssign_filter]
      constructor
      · rw [assignSeq_map_draw, assignSeq_length]
      · have hP := sortRecs_pairwise H
        have hPf := hP.filter (fun r => decide (gKey r = k))
        have hPc : ((sortRecs (astypeRecs fit)).filter
            (fun r => decide (gKey r = k))).Pairwise chainIterOrdered := by
          refine hPf.imp_of_mem ?_
          intro a b ha hb hab
          have hak : gKey a = k := of_decide_eq_true (List.mem_filter.mp ha).2
          have hbk : gKey b = k := of_decide_eq_true (List.mem_filter.mp hb).2
          exact hab (hak.trans hbk.symm)
        exact assignSeq_pairwise (fun a b na nb h => h) _ 1 hPc
    case neg =>
      have hnil : (groupbyAssign (sortRecs (astypeRecs fit))).filter
          (fun a => decide (gKey a = k) && decide (a.variable_ = par)) = [] := by
        rw [List.filter_eq_nil_iff]
        intro a _ hcon
        rw [Bool.and_eq_true] at hcon
        have hk := of_decide_eq_true hcon.1
        have hv := of_decide_eq_true hcon.2
        apply hpar
        have h3 := congrArg Prod.fst hk
        simp only [gKey] at h3
        rw [← h3, hv]
      rw [hnil]
      exact ⟨rfl, List.Pairwise.nil⟩

/-- Witness for C2 at the concrete fit `fitRE2` and the group key
`("beta", 1, 1)`: both hypotheses hold there and the group draws are the
dense `1..N` in chain order. -/
theorem c2_witness :
    ((tRE2.filter (fun r => gKey r = ("beta", 1, 1))).map (fun r => r.draw) =
      List.range' 1
        (tRE2.filter (fun r => gKey r = ("beta", 1, 1))).length) ∧
    (tRE2.filter (fun r => gKey r = ("beta", 1, 1))).Pairwise
      chainIterOrdered :=
  c2_draw_reassignment_dense_and_ordered fitRE2 "beta" "C" "M" tRE2
    (by decide) (by decide) ("beta", 1, 1)

/-- C7.  The Contrast Evaluator extracts exactly `a` and `b` from the
formula `"2/3*a - b"`; and in strict mode, whenever some extracted
identifiers are missing from the columns of the table, it raises one
ValueError carrying exactly the list of all missing identifiers, with
the table left untouched. -/
theorem c7_contrast_identifiers_and_strict_error :
    clean_contrast_elements "2/3*a - b" = ["a", "b"] ∧
    ∀ (x : Table) (fe : List (String × String)),
      missingContrasts x fe ≠ [] →
      mutate_from_expr_list x fe false =
        (x, some (.valueError (missingContrasts x fe))) := by
  refine ⟨by decide, ?_⟩
  intro x fe h
  have h2 : (missingContrasts x fe).isEmpty = false := by
    cases hm : missingContrasts x fe with
    | nil => exact absurd hm h
    | cons a l => simp [List.isEmpty]
  simp [mutate_from_expr_list, h2]

/-- Witness for C7: on the concrete table lacking `b`, the strict-mode
call returns the ValueError naming exactly `b` and leaves the table
unchanged. -/
theorem c7_witness :
    clean_contrast_elements "2/3*a - b" = ["a", "b"] ∧
    mutate_from_expr_list tableOnlyA [("s", "2/3*a - b")] false =
      (tableOnlyA, some (.valueError ["b"])) := by
  refine ⟨c7_contrast_identifiers_and_strict_error.1, ?_⟩
  have h := c7_contrast_identifiers_and_strict_error.2 tableOnlyA
    [("s", "2/3*a - b")] (by decide)
  have h2 : missingContrasts tableOnlyA [("s", "2/3*a - b")] = ["b"] := by decide
  rw [h2] at h
  exact h

/-- `tAssign` puts the assigned column name among the columns. -/
theorem mem_colNames_tAssign_self (t : Table) (c : String) (v : List Int) :
    c ∈ (tAssign t c v).colNames := by
  unfold tAssign
  split
  · rename_i h
    have h3 : c ∈ t.colNames := by simpa using h
    simp only [Table.colNames, List.map_map, List.mem_map] at h3 ⊢
    obtain ⟨p, hp, hpc⟩ := h3
    refine ⟨p, hp, ?_⟩
    simp [Function.comp, hpc]
  · simp [Table.colNames]

/-- `tAssign` never removes a column name. -/
theorem mem_colNames_tAssign_mono {a : String} (t : Table) (c : String)
    (v : List Int) (h : a ∈ t.colNames) : a ∈ (tAssign t c v).colNames := by
  unfold tAssign
  split
  · simp only [Table.colNames, List.map_map, List.mem_map] at h ⊢
    obtain ⟨p, hp, hpa⟩ := h
    subst hpa
    refine ⟨p, hp, ?_⟩
    simp only [Function.comp]
    split
    · rename_i hc
      exact hc.symm
    · rfl
  · simp only [Table.colNames, List.map_append, List.mem_append]
    exact Or.inl h

/-- The per-formula loop never removes a column name from the state of
the caller's object. -/
theorem mutateLoop_colNames_mono {a : String} (pnames : List String) :
    ∀ (fe : List (String × String)) (x : Table) (ig : Bool),
      a ∈ x.colNames → a ∈ (mutateLoop x pnames fe ig).1.colNames
  | [], x, ig, h => h
  | (c, f) :: rest, x, ig, h => by
    rw [mutateLoop]
    cases hev : evalFormula x (escape_column_names f pnames) with
    | some v =>
      exact mutateLoop_colNames_mono pnames rest _ ig
        (mem_colNames_tAssign_mono x c _ h)
    | none =>
      cases ig with
      | true => exact mutateLoop_colNames_mono pnames rest x true h
      | false => exact h

/-- C10.  In lenient mode, when the first formula of a non-empty mapping
evaluates successfully, the derived column is assigned into the object
the caller passed: after the call, the caller-visible table (the first
component of the result) contains the new column — and, when the column
name is new, that table is observably different from the input, rather
than the input being left unchanged with a fresh output built
elsewhere. -/
theorem c10_mutate_assigns_into_callers_table
    (x : Table) (c f : String) (rest : List (String × String)) (v : EV)
    (hev : evalFormula x (escape_column_names f x.colNames) = some v) :
    c ∈ ((mutate_from_expr_list x ((c, f) :: rest) true).1).colNames ∧
    (c ∉ x.colNames →
      (mutate_from_expr_list x ((c, f) :: rest) true).1 ≠ x) := by
  have hmain :
      c ∈ ((mutate_from_expr_list x ((c, f) :: rest) true).1).colNames := by
    unfold mutate_from_expr_list
    have hcond :
        ¬ (¬ (missingContrasts x ((c, f) :: rest)).isEmpty = true ∧
           ¬ (true : Bool) = true) := by simp
    rw [if_neg hcond, mutateLoop, hev]
    exact mutateLoop_colNames_mono x.colNames rest _ true
      (mem_colNames_tAssign_self x c _)
  refine ⟨hmain, ?_⟩
  intro hnotin heq
  rw [heq] at hmain
  exact hnotin hmain

/-- Witness for C10: on a concrete two-column table with the formula
`a+b`, the caller-visible table contains the derived column `s` and is
different from the input table. -/
theorem c10_witness :
    "s" ∈ ((mutate_from_expr_list tableAB [("s", "a+b")] true).1).colNames ∧
    (mutate_from_expr_list tableAB [("s", "a+b")] true).1 ≠ tableAB := by
  have h := c10_mutate_assigns_into_callers_table tableAB "s" "a+b" []
    (EV.col [11, 22]) (by decide)
  exact ⟨h.1, h.2 (by decide)⟩

end SccompPy
